import Mathlib

/-! MIRAI chat page controller.

A shallow embedding of `static/script.js`: the form submit handler, the reply
reveal timer, the microphone toggle, the speak button and the transcript export.

JavaScript strings are sequences of UTF-16 code units.  The DOM and the platform
services the script drives are an explicit `Page` state; each event handler is a
function on that state.  The `await` inside the submit handler splits it in two:
the part that runs up to the `fetch` call and the part that runs once the fetch
has settled.
-/

namespace Mirai

/-- A JavaScript string, as its UTF-16 code units. -/
abbrev JSString := List Nat

/-- Leading (high) surrogate code unit. -/
def isHighSurrogate (c : Nat) : Bool := 0xD800 ≤ c && c ≤ 0xDBFF

/-- Trailing (low) surrogate code unit. -/
def isLowSurrogate (c : Nat) : Bool := 0xDC00 ≤ c && c ≤ 0xDFFF

/-- ECMAScript WhiteSpace and LineTerminator code units: what
`String.prototype.trim` removes from both ends. -/
def isTrimUnit (c : Nat) : Bool :=
  c == 0x09 || c == 0x0A || c == 0x0B || c == 0x0C || c == 0x0D || c == 0x20 ||
  c == 0xA0 || c == 0x1680 || (0x2000 ≤ c && c ≤ 0x200A) || c == 0x2028 ||
  c == 0x2029 || c == 0x202F || c == 0x205F || c == 0x3000 || c == 0xFEFF

/-- `String.prototype.trim`. -/
def trim (s : JSString) : JSString :=
  ((s.dropWhile isTrimUnit).reverse.dropWhile isTrimUnit).reverse

/-- `String.prototype.charAt`: the one-unit string at index `i`, or the empty
string when `i` is out of range. -/
def charAt (s : JSString) (i : Nat) : JSString :=
  match s[i]? with
  | some c => [c]
  | none => []

/-- The two classes of transcript entry the script creates:
`message user` and `message bot typing`. -/
inductive Role
  | user
  | bot
deriving DecidableEq, Repr

/-- A `div.message` of the transcript.  `span` is the content of its `span`
child: for a user entry the trimmed message interpolated into `innerHTML` (kept
as written, markup in it is not interpreted), for a bot entry the `textContent`
the reveal timer appends to. -/
structure Entry where
  role : Role
  span : JSString
deriving DecidableEq, Repr

/-- What `await res.json()` yields, classified by how the expressions
`data.reply.length` and `data.reply.charAt(i)` of the timer callback evaluate. -/
inductive Body
  /-- the body is not JSON: `res.json()` rejects -/
  | notJson
  /-- `data` is `null`: `data.reply` throws a TypeError -/
  | nullish
  /-- `data.reply` is `undefined` or `null`: `.length` throws a TypeError -/
  | replyAbsent
  /-- `data.reply` is the string `r` -/
  | replyString (r : JSString)
  /-- `data.reply` is a number, boolean or object without `length`:
  `i < undefined` is false -/
  | replyNoLength
  /-- `data.reply` is a non-string with numeric `length` `n` (an array):
  `data.reply.charAt` is not a function -/
  | replyArray (n : Nat)
deriving DecidableEq, Repr

/-- How the `fetch` of a submission settles.  A response carries whether its
status is in the success range (`res.ok`, which the script never reads). -/
inductive Outcome
  | rejected
  | response (ok : Bool) (body : Body)
deriving DecidableEq, Repr

/-- The `FormData` posted to `/send_message/<chatId>`. -/
structure Request where
  message : JSString
  file : Option Nat
deriving DecidableEq, Repr

/-- The two `alert` texts of the script. -/
inductive Alert
  /-- "⚠️ Error sending message." -/
  | sendError
  /-- "🎙️ Speech error" -/
  | speechError
deriving DecidableEq, Repr

/-- Text of the mic button: "🛑" while listening, "🎤" when idle; `markup` is
whatever the page was served with. -/
inductive MicLabel
  | markup
  | listening
  | idle
deriving DecidableEq, Repr

/-- Calls the script makes that leave the page, and the transcript appends, in
the order they happen. -/
inductive Effect
  | appendChild (role : Role)
  | fetch (req : Request)
  | alert (a : Alert)
  | recognitionStart (session : Nat)
  | recognitionStop (session : Nat)
  | synthesisCancel
  | synthesisSpeak (msg : JSString) (voice : Option Nat)
deriving DecidableEq, Repr

/-- The closure passed to `setInterval`: the captured `span` (by the index of
its entry in the transcript), the captured `data`, and the counter `i`. -/
structure Interval where
  span : Nat
  data : Body
  i : Nat
deriving DecidableEq, Repr

/-- The page state the handlers read and write. -/
structure Page where
  /-- children of `#chatContainer` -/
  chatBox : List Entry
  /-- `input.value` -/
  input : JSString
  /-- `fileInput.files` -/
  files : List Nat
  /-- interval timers by id; `none` once cleared -/
  timers : List (Option Interval)
  /-- the `recognition` variable: the session object it holds, if any -/
  recognition : Option Nat
  /-- `micBtn.textContent` -/
  micLabel : MicLabel
  /-- recognition sessions created so far, by id; `true` while the session has
  been started and its `end` event has not been delivered -/
  sessions : List Bool
  /-- whether `window.SpeechRecognition || window.webkitSpeechRecognition` is a
  constructor -/
  hasRecognition : Bool
  /-- the `selectedVoice` variable -/
  selectedVoice : Option Nat
  /-- effects so far, oldest first -/
  log : List Effect
deriving DecidableEq, Repr

/-! ## Submit handler -/

/-- The guard `!message && !fileInput.files.length` of the submit handler. -/
def skipped (s : Page) : Bool :=
  (trim s.input).isEmpty && s.files.isEmpty

/-- The submit handler from the guard to the `fetch` call: append the user
entry, clear the input, build the form data and post it. -/
def submitSend (s : Page) : Page :=
  let message := trim s.input
  { s with
    chatBox := s.chatBox ++ [⟨Role.user, message⟩]
    input := []
    log := s.log ++ [Effect.appendChild Role.user, Effect.fetch ⟨message, s.files.head?⟩] }

/-- The submit handler after the `fetch` has settled: the rest of the `try`
block or the `catch`, then `fileInput.value = ''`. -/
def submitSettle (o : Outcome) (s : Page) : Page :=
  match o with
  | Outcome.rejected =>
    { s with files := [], log := s.log ++ [Effect.alert Alert.sendError] }
  | Outcome.response _ Body.notJson =>
    { s with files := [], log := s.log ++ [Effect.alert Alert.sendError] }
  | Outcome.response _ data =>
    { s with
      chatBox := s.chatBox ++ [⟨Role.bot, []⟩]
      timers := s.timers ++ [some ⟨s.chatBox.length, data, 0⟩]
      files := []
      log := s.log ++ [Effect.appendChild Role.bot] }

/-- The whole submit handler, run with the outcome its `fetch` will have and
with no other event in between. -/
def submit (o : Outcome) (s : Page) : Page :=
  if skipped s then s else submitSettle o (submitSend s)

/-! ## Reveal timer -/

/-- `span.textContent += u` on the span of transcript entry `idx`. -/
def appendText (box : List Entry) (idx : Nat) (u : JSString) : List Entry :=
  match box[idx]? with
  | some e => box.set idx { e with span := e.span ++ u }
  | none => box

/-- `clearInterval(interval)` for timer `id`. -/
def clearTimer (id : Nat) (s : Page) : Page :=
  { s with timers := s.timers.set id none }

/-- One firing of the `setInterval` callback of timer `id`.  A cleared timer
does not fire.  A TypeError thrown by the callback ends that firing and leaves
the timer armed: thrown by `data.reply.length` it leaves the page as it is;
thrown by the call of a missing `charAt` it comes after the argument `i++` has
been evaluated and before anything is assigned to `textContent`. -/
def tick (id : Nat) (s : Page) : Page :=
  match s.timers[id]? with
  | some (some t) =>
    match t.data with
    | Body.replyString r =>
      if t.i < r.length then
        { s with
          chatBox := appendText s.chatBox t.span (charAt r t.i)
          timers := s.timers.set id (some { t with i := t.i + 1 }) }
      else clearTimer id s
    | Body.replyArray n =>
      if t.i < n then { s with timers := s.timers.set id (some { t with i := t.i + 1 }) }
      else clearTimer id s
    | Body.replyNoLength => clearTimer id s
    | Body.nullish => s
    | Body.replyAbsent => s
    | Body.notJson => s
  | _ => s

/-- `n` firings in a row of timer `id`. -/
def ticks (id : Nat) : Nat → Page → Page
  | 0, s => s
  | n + 1, s => ticks id n (tick id s)

/-- The text shown in transcript entry `idx`. -/
def shown (s : Page) (idx : Nat) : Option JSString :=
  (s.chatBox[idx]?).map Entry.span

/-- Whether timer `id` is still armed. -/
def armed (s : Page) (id : Nat) : Bool :=
  match s.timers[id]? with
  | some (some _) => true
  | _ => false

/-! ## Microphone toggle -/

/-- The click handler of `micBtn`.  With no constructor available the `new`
expression throws before anything is assigned. -/
def micClick (s : Page) : Page :=
  match s.recognition with
  | none =>
    if s.hasRecognition then
      { s with
        recognition := some s.sessions.length
        sessions := s.sessions ++ [true]
        micLabel := MicLabel.listening
        log := s.log ++ [Effect.recognitionStart s.sessions.length] }
    else s
  | some r =>
    { s with
      recognition := none
      micLabel := MicLabel.idle
      log := s.log ++ [Effect.recognitionStop r] }

/-- Whether session `id` has been started and its `end` event not yet
delivered. -/
def live (s : Page) (id : Nat) : Bool :=
  s.sessions[id]? == some true

/-- The `onresult` handler of session `id`, with the joined transcripts of the
event. -/
def onResult (id : Nat) (text : JSString) (s : Page) : Page :=
  if live s id then { s with input := text } else s

/-- The `onerror` handler of session `id`. -/
def onError (id : Nat) (s : Page) : Page :=
  if live s id then { s with log := s.log ++ [Effect.alert Alert.speechError] } else s

/-- Delivery of the `end` event of session `id` and its `onend` handler. -/
def onEnd (id : Nat) (s : Page) : Page :=
  if live s id then
    { s with
      sessions := s.sessions.set id false
      micLabel := MicLabel.idle
      recognition := none }
  else s

/-- Number of sessions started and not ended. -/
def liveCount (s : Page) : Nat :=
  s.sessions.count true

/-! ## Speak button -/

/-- The `textContent` of the elements `document.querySelectorAll('.message.bot
span')` finds inside one transcript entry.  A bot entry contributes its one
span.  A
user entry was written through `innerHTML`, so its message was parsed as
markup: `spansIn m` stands for the HTML parser and the selector engine of the
platform, and gives the `textContent` of the spans inside `.message.bot`
elements that the message `m` parses to (none for a message without markup). -/
def entrySpans (spansIn : JSString → List JSString) (e : Entry) : List JSString :=
  match e.role with
  | Role.bot => [e.span]
  | Role.user => spansIn e.span

/-- The `textContent` of every element matching `.message.bot span`, over the
whole transcript in document order. -/
def botSpans (spansIn : JSString → List JSString) (s : Page) : List JSString :=
  s.chatBox.flatMap (entrySpans spansIn)

/-- The click handler of `speakBtn`: the `textContent` of the last element
matching `.message.bot span` is handed to speech synthesis, after cancelling
what is being spoken; with no such element nothing happens. -/
def speakClick (spansIn : JSString → List JSString) (s : Page) : Page :=
  match (botSpans spansIn s).getLast? with
  | some msg =>
    { s with log := s.log ++ [Effect.synthesisCancel, Effect.synthesisSpeak msg s.selectedVoice] }
  | none => s

/-! ## Events -/

/-- Events that change the page.  (A click on the speak button only adds to the
effect log, see `speakClick`.) -/
inductive Event
  | submitted
  | settled (o : Outcome)
  | timer (id : Nat)
  | micClicked
  | result (session : Nat) (text : JSString)
  | error (session : Nat)
  | ended (session : Nat)
  | typed (text : JSString)
deriving DecidableEq, Repr

/-- One event handled. -/
def step (s : Page) : Event → Page
  | Event.submitted => if skipped s then s else submitSend s
  | Event.settled o => submitSettle o s
  | Event.timer id => tick id s
  | Event.micClicked => micClick s
  | Event.result id text => onResult id text s
  | Event.error id => onError id s
  | Event.ended id => onEnd id s
  | Event.typed text => { s with input := text }

/-- A sequence of events handled in order. -/
def run (s : Page) (es : List Event) : Page :=
  es.foldl step s

/-- A freshly loaded page with an empty transcript. -/
def Page.fresh : Page :=
  { chatBox := [], input := [], files := [], timers := [], recognition := none,
    micLabel := MicLabel.markup, sessions := [], hasRecognition := true,
    selectedVoice := none, log := [] }

/-! ## Export -/

/-- `String.prototype.toLowerCase` on the Basic Latin letters.  Code units
outside `A`–`Z` are left as they are: none of them lowercases to a letter of
"json" or "md", and lowercasing never empties a string, so the branch
`exportClick` takes is the one the script takes. -/
def toLowerCase (s : JSString) : JSString :=
  s.map fun c => if 0x41 ≤ c ∧ c ≤ 0x5A then c + 32 else c

/-- Lowercase hexadecimal digit of `d < 16`, as a code unit. -/
def hexDigit (d : Nat) : Nat :=
  if d < 10 then 48 + d else 87 + d

/-- UnicodeEscape of ECMAScript: a backslash, `u` and four hex digits. -/
def unicodeEscape (c : Nat) : JSString :=
  [92, 117, hexDigit (c / 4096 % 16), hexDigit (c / 256 % 16), hexDigit (c / 16 % 16),
    hexDigit (c % 16)]

/-- QuoteJSONString on one code unit that is not part of a surrogate pair. -/
def escapeUnit (c : Nat) : JSString :=
  if c = 8 then [92, 98]
  else if c = 9 then [92, 116]
  else if c = 10 then [92, 110]
  else if c = 12 then [92, 102]
  else if c = 13 then [92, 114]
  else if c = 34 then [92, 34]
  else if c = 92 then [92, 92]
  else if c < 32 || isHighSurrogate c || isLowSurrogate c then unicodeEscape c
  else [c]

/-- The body of QuoteJSONString: surrogate pairs are copied, every other code
unit goes through `escapeUnit`. -/
def quoteUnits : JSString → JSString
  | [] => []
  | [c] => escapeUnit c
  | c :: d :: rest =>
    if isHighSurrogate c && isLowSurrogate d then c :: d :: quoteUnits rest
    else escapeUnit c ++ quoteUnits (d :: rest)

/-- QuoteJSONString of ECMAScript. -/
def quoteJSONString (s : JSString) : JSString :=
  34 :: (quoteUnits s ++ [34])

/-- `JSON.stringify(messages, null, 2)` for an array of strings. -/
def stringify (messages : List JSString) : JSString :=
  if messages.isEmpty then [91, 93]
  else [91, 10, 32, 32] ++ [44, 10, 32, 32].intercalate (messages.map quoteJSONString) ++ [10, 93]

/-- The `type` of the exported blob. -/
inductive Mime
  /-- "text/plain" -/
  | textPlain
  /-- "application/json" -/
  | applicationJson
deriving DecidableEq, Repr

/-- Conversion of a string to scalar values, as done on a string part handed to
`new Blob`: every surrogate that is not half of a surrogate pair becomes
U+FFFD. -/
def toScalarValues : JSString → JSString
  | [] => []
  | [c] => [if isHighSurrogate c || isLowSurrogate c then 0xFFFD else c]
  | c :: d :: rest =>
    if isHighSurrogate c && isLowSurrogate d then c :: d :: toScalarValues rest
    else (if isHighSurrogate c || isLowSurrogate c then 0xFFFD else c) ::
      toScalarValues (d :: rest)

/-- The file the export button offers: the extension after "mirai_chat.", the
blob type, and the text the blob holds: the string handed to `new Blob`,
converted to scalar values (the bytes of the file are the UTF-8 encoding of
this text). -/
structure Download where
  ext : JSString
  type : Mime
  content : JSString
deriving DecidableEq, Repr

/-- The click handler of `exportBtn`, given the trimmed `innerText` of every
`.message` and the answer to the prompt (`none` when cancelled). -/
def exportClick (messages : List JSString) (answer : Option JSString) : Option Download :=
  match answer.map toLowerCase with
  | none => none
  | some format =>
    if format.isEmpty then none
    else if format = [106, 115, 111, 110] then
      some ⟨[106, 115, 111, 110], Mime.applicationJson, toScalarValues (stringify messages)⟩
    else if format = [109, 100] then
      some ⟨[109, 100], Mime.textPlain,
        toScalarValues ([10].intercalate (messages.map fun m => [45, 32] ++ m))⟩
    else
      some ⟨[116, 120, 116], Mime.textPlain, toScalarValues ([10].intercalate messages)⟩

/-! ## A JSON reader for arrays of strings

`JSON.parse` restricted to the texts whose value is an array of strings,
following the JSON grammar; used to say what an exported JSON text denotes. -/

/-- JSON insignificant whitespace. -/
def isJsonSpace (c : Nat) : Bool :=
  c == 32 || c == 9 || c == 10 || c == 13

/-- Value of a hexadecimal digit. -/
def hexValue (c : Nat) : Option Nat :=
  if 48 ≤ c ∧ c ≤ 57 then some (c - 48)
  else if 97 ≤ c ∧ c ≤ 102 then some (c - 87)
  else if 65 ≤ c ∧ c ≤ 70 then some (c - 55)
  else none

/-- The code unit a two-character escape stands for. -/
def unescape (e : Nat) : Option Nat :=
  if e = 34 then some 34
  else if e = 92 then some 92
  else if e = 47 then some 47
  else if e = 98 then some 8
  else if e = 102 then some 12
  else if e = 110 then some 10
  else if e = 114 then some 13
  else if e = 116 then some 9
  else none

/-- Put a decoded code unit in front of the rest of a decoded string. -/
def consUnit (c : Nat) (r : Option (JSString × JSString)) : Option (JSString × JSString) :=
  r.map fun p => (c :: p.1, p.2)

/-- Read the characters of a JSON string after its opening quote, up to and
including the closing quote; gives the decoded string and the rest of the
input.  The fuel bounds the number of characters read. -/
def parseChars : Nat → JSString → Option (JSString × JSString)
  | 0, _ => none
  | _ + 1, [] => none
  | fuel + 1, c :: rest =>
    if c = 34 then some ([], rest)
    else if c = 92 then
      match rest with
      | [] => none
      | e :: rest1 =>
        if e = 117 then
          match rest1 with
          | h1 :: h2 :: h3 :: h4 :: rest2 =>
            match hexValue h1, hexValue h2, hexValue h3, hexValue h4 with
            | some a, some b, some c1, some d =>
              consUnit (4096 * a + 256 * b + 16 * c1 + d) (parseChars fuel rest2)
            | _, _, _, _ => none
          | _ => none
        else
          match unescape e with
          | some u => consUnit u (parseChars fuel rest1)
          | none => none
    else if c < 32 then none
    else consUnit c (parseChars fuel rest)

/-- Drop leading JSON whitespace. -/
def skipSpace (inp : JSString) : JSString :=
  inp.dropWhile isJsonSpace

/-- Read the elements of a non-empty array of strings, from the opening quote
of the first element to the closing bracket. -/
def parseElements : Nat → JSString → Option (List JSString × JSString)
  | 0, _ => none
  | fuel + 1, inp =>
    match inp with
    | [] => none
    | q :: rest =>
      if q = 34 then
        match parseChars rest.length rest with
        | none => none
        | some (str, r1) =>
          match skipSpace r1 with
          | [] => none
          | t :: r2 =>
            if t = 44 then
              (parseElements fuel (skipSpace r2)).map fun p => (str :: p.1, p.2)
            else if t = 93 then some ([str], r2)
            else none
      else none

/-- Read a JSON text whose value is an array of strings. -/
def parseStringArray (inp : JSString) : Option (List JSString) :=
  match skipSpace inp with
  | [] => none
  | b :: r =>
    if b = 91 then
      match skipSpace r with
      | [] => none
      | c :: r1 =>
        if c = 93 then (if (skipSpace r1).isEmpty then some [] else none)
        else
          match parseElements inp.length (c :: r1) with
          | some (xs, r2) => if (skipSpace r2).isEmpty then some xs else none
          | none => none
    else none

/-! ## Predicates used to state the properties -/

/-- A backend outcome that is a failure in the sense of the protocol: the fetch
is rejected, the status is not a success status, or the body is not a JSON
object with a string `reply`. -/
def Outcome.isFailure : Outcome → Bool
  | Outcome.rejected => true
  | Outcome.response ok (Body.replyString _) => !ok
  | Outcome.response _ _ => true

/-- A backend outcome that makes the `try` block throw: the fetch is rejected or
`res.json()` rejects. -/
def Outcome.throws : Outcome → Bool
  | Outcome.rejected => true
  | Outcome.response _ Body.notJson => true
  | Outcome.response _ _ => false

/-- Position `k` of `r` lies between the two halves of a surrogate pair. -/
def splitsPair (r : JSString) (k : Nat) : Bool :=
  match k with
  | 0 => false
  | j + 1 =>
    match r[j]?, r[j + 1]? with
    | some a, some b => isHighSurrogate a && isLowSurrogate b
    | _, _ => false

/-- The answer is the lowercase Basic Latin word `word` up to the case of its
letters: unit by unit it has the letter of `word` or the capital of it. -/
def sameIgnoringCase : JSString → JSString → Bool
  | [], [] => true
  | a :: answer, w :: word =>
    (a == w || (97 ≤ w && w ≤ 122 && a + 32 == w)) && sameIgnoringCase answer word
  | _, _ => false

/-- The page after the event sequence of a reveal under way: from `s`, a
response with reply `r` arrives and its timer fires `k` times. -/
def revealing (s : Page) (ok : Bool) (r : JSString) (k : Nat) : Page :=
  ticks s.timers.length k (submitSettle (Outcome.response ok (Body.replyString r)) s)

/-- A page whose input holds only whitespace: a space, a line feed and a
no-break space. -/
def Page.blank : Page :=
  { Page.fresh with input := [32, 10, 0xA0] }

/-- A page whose input holds " Hello". -/
def Page.hello : Page :=
  { Page.fresh with input := [32, 72, 101, 108, 108, 111] }

/-- Every armed timer writes to an entry that is in the transcript. -/
def targetsExist (s : Page) : Bool :=
  s.timers.all fun t =>
    match t with
    | some x => decide (x.span < s.chatBox.length)
    | none => true

/-- The page after "a" is sent, the reply "Hi" arrives and its timer has fired
once: the bot entry shows "H". -/
def Page.midReveal : Page :=
  run Page.fresh
    [Event.typed [97], Event.submitted,
      Event.settled (Outcome.response true (Body.replyString [72, 105])), Event.timer 0]

/-- From `Page.midReveal`, "b" is sent and the reply "Yo" arrives. -/
def Page.secondReply : Page :=
  run Page.midReveal
    [Event.typed [98], Event.submitted,
      Event.settled (Outcome.response true (Body.replyString [89, 111]))]

/-- The page after three clicks on the mic button and then the `end` event of
the first session: the first session was started and stopped, the second
started, and the first one's `end` arrives late. -/
def Page.staleEnd : Page :=
  run Page.fresh [Event.micClicked, Event.micClicked, Event.micClicked, Event.ended 0]

/-- The message `<div class="message bot"><span>X</span></div>`. -/
def injectedMarkup : JSString :=
  [60, 100, 105, 118, 32, 99, 108, 97, 115, 115, 61, 34, 109, 101, 115, 115, 97, 103, 101, 32,
    98, 111, 116, 34, 62, 60, 115, 112, 97, 110, 62, 88, 60, 47, 115, 112, 97, 110, 62, 60, 47,
    100, 105, 118, 62]

/-- What the HTML parser and the selector `.message.bot span` give on the
messages of the examples below: the one span "X" for `injectedMarkup`, and no
span for the messages without markup. -/
def sampleSpans (m : JSString) : List JSString :=
  if m = injectedMarkup then [[88]] else []

/-- The page after `injectedMarkup` is typed and sent: the transcript holds the
user entry alone. -/
def Page.injected : Page :=
  run Page.fresh [Event.typed injectedMarkup, Event.submitted]

/-- A rendered transcript caught in the middle of the reveal of an emoji:
"Mirai: " and a lone high surrogate. -/
def halfRevealed : List JSString :=
  [[77, 105, 114, 97, 105, 58, 32, 0xD83D]]

/-- The rendered transcript "You: Hi", "Mirai: Hello". -/
def sampleTranscript : List JSString :=
  [[89, 111, 117, 58, 32, 72, 105], [77, 105, 114, 97, 105, 58, 32, 72, 101, 108, 108, 111]]

/-! ## Submit handler: properties -/

theorem skipped_eq_true_iff (s : Page) :
    skipped s = true ↔ trim s.input = [] ∧ s.files = [] := by
  simp [skipped, List.isEmpty_iff]

theorem skipped_eq_false_iff (s : Page) :
    skipped s = false ↔ trim s.input ≠ [] ∨ s.files ≠ [] := by
  rw [← Bool.not_eq_true, skipped_eq_true_iff]
  tauto

/-- C1: when the trimmed input is empty and no file is selected, the submit
handler leaves the whole page as it was: the transcript, the input and the
effect log (so no request is issued), whatever the backend would have answered. -/
theorem submit_empty_is_noop (o : Outcome) (s : Page)
    (htext : trim s.input = []) (hfile : s.files = []) :
    submit o s = s ∧ step s Event.submitted = s := by
  have h : skipped s = true := (skipped_eq_true_iff s).2 ⟨htext, hfile⟩
  simp [submit, step, h]

theorem submit_empty_is_noop_witness :
    (trim Page.blank.input = [] ∧ Page.blank.files = []) ∧
      submit Outcome.rejected Page.blank = Page.blank ∧
      step Page.blank Event.submitted = Page.blank :=
  ⟨⟨by decide, by decide⟩, submit_empty_is_noop Outcome.rejected Page.blank (by decide) (by decide)⟩

/-- C3: a submission that is not skipped and whose backend call succeeds appends
one user entry and then one bot entry to the transcript, issues exactly one
request, after the user entry is appended and before the bot entry, and leaves
the input empty. -/
theorem submit_success_appends_user_then_bot (s : Page) (r : JSString)
    (h : trim s.input ≠ [] ∨ s.files ≠ []) :
    (submit (Outcome.response true (Body.replyString r)) s).chatBox
        = s.chatBox ++ [⟨Role.user, trim s.input⟩, ⟨Role.bot, []⟩] ∧
      (submit (Outcome.response true (Body.replyString r)) s).log
        = s.log ++ [Effect.appendChild Role.user,
            Effect.fetch ⟨trim s.input, s.files.head?⟩, Effect.appendChild Role.bot] ∧
      (submit (Outcome.response true (Body.replyString r)) s).input = [] := by
  have hs : skipped s = false := (skipped_eq_false_iff s).2 h
  simp [submit, hs, submitSettle, submitSend]

theorem submit_success_appends_user_then_bot_witness :
    (trim Page.hello.input ≠ [] ∨ Page.hello.files ≠ []) ∧
      (submit (Outcome.response true (Body.replyString [72, 105])) Page.hello).chatBox
        = Page.hello.chatBox ++ [⟨Role.user, trim Page.hello.input⟩, ⟨Role.bot, []⟩] ∧
      (submit (Outcome.response true (Body.replyString [72, 105])) Page.hello).log
        = Page.hello.log ++ [Effect.appendChild Role.user,
            Effect.fetch ⟨trim Page.hello.input, Page.hello.files.head?⟩,
            Effect.appendChild Role.bot] ∧
      (submit (Outcome.response true (Body.replyString [72, 105])) Page.hello).input = [] :=
  ⟨Or.inl (by decide),
    submit_success_appends_user_then_bot Page.hello [72, 105] (Or.inl (by decide))⟩

/-- C2, as stated, fails: a response with a non-success status whose body is a
JSON object with a string reply is a failure outcome, yet the handler appends a
bot entry and raises no alert. -/
theorem submit_failure_status_appends_bot :
    (Outcome.response false (Body.replyString [72, 105])).isFailure = true ∧
      (submit (Outcome.response false (Body.replyString [72, 105])) Page.hello).chatBox
        = [⟨Role.user, [72, 101, 108, 108, 111]⟩, ⟨Role.bot, []⟩] ∧
      Effect.alert Alert.sendError ∉
        (submit (Outcome.response false (Body.replyString [72, 105])) Page.hello).log := by
  decide

/-- C2, amended: when the fetch is rejected or the response body is not JSON,
a submission that is not skipped appends the user entry and no bot entry,
issues its request and then raises the error alert, and leaves the input
cleared; and the response status is never consulted: a response is handled the
same whether its status is a success status or not. -/
theorem submit_throwing_outcome_alerts (o : Outcome) (s : Page)
    (ho : o.throws = true) (h : trim s.input ≠ [] ∨ s.files ≠ []) :
    (submit o s).chatBox = s.chatBox ++ [⟨Role.user, trim s.input⟩] ∧
      (submit o s).log
        = s.log ++ [Effect.appendChild Role.user,
            Effect.fetch ⟨trim s.input, s.files.head?⟩, Effect.alert Alert.sendError] ∧
      (submit o s).input = [] ∧
      (submit o s).timers = s.timers ∧
      ∀ b, submit (Outcome.response false b) s = submit (Outcome.response true b) s := by
  have hs : skipped s = false := (skipped_eq_false_iff s).2 h
  refine ⟨?_, ?_, ?_, ?_, ?_⟩
  · cases o with
    | rejected => simp [submit, hs, submitSettle, submitSend]
    | response ok b => cases b <;> simp_all [submit, submitSettle, submitSend, Outcome.throws]
  · cases o with
    | rejected => simp [submit, hs, submitSettle, submitSend]
    | response ok b => cases b <;> simp_all [submit, submitSettle, submitSend, Outcome.throws]
  · cases o with
    | rejected => simp [submit, hs, submitSettle, submitSend]
    | response ok b => cases b <;> simp_all [submit, submitSettle, submitSend, Outcome.throws]
  · cases o with
    | rejected => simp [submit, hs, submitSettle, submitSend]
    | response ok b => cases b <;> simp_all [submit, submitSettle, submitSend, Outcome.throws]
  · intro b
    cases b <;> simp [submit, submitSettle]

theorem submit_throwing_outcome_alerts_witness :
    (Outcome.rejected.throws = true ∧ (trim Page.hello.input ≠ [] ∨ Page.hello.files ≠ [])) ∧
      ((submit Outcome.rejected Page.hello).chatBox
          = Page.hello.chatBox ++ [⟨Role.user, trim Page.hello.input⟩] ∧
        (submit Outcome.rejected Page.hello).log
          = Page.hello.log ++ [Effect.appendChild Role.user,
              Effect.fetch ⟨trim Page.hello.input, Page.hello.files.head?⟩,
              Effect.alert Alert.sendError] ∧
        (submit Outcome.rejected Page.hello).input = [] ∧
        (submit Outcome.rejected Page.hello).timers = Page.hello.timers ∧
        ∀ b, submit (Outcome.response false b) Page.hello
          = submit (Outcome.response true b) Page.hello) :=
  ⟨⟨by decide, Or.inl (by decide)⟩,
    submit_throwing_outcome_alerts Outcome.rejected Page.hello (by decide) (Or.inl (by decide))⟩

/-! ## Reveal timer: properties -/

theorem ticks_succ (id n : Nat) (s : Page) : ticks id (n + 1) s = tick id (ticks id n s) := by
  induction n generalizing s with
  | zero => rfl
  | succ n ih => exact ih (tick id s)

theorem set_concat_length {α : Type} (l : List α) (a b : α) :
    (l ++ [a]).set l.length b = l ++ [b] := by
  induction l with
  | nil => rfl
  | cons x l ih => simp [List.set, ih]

theorem appendText_concat (box : List Entry) (e : Entry) (u : JSString) :
    appendText (box ++ [e]) box.length u = box ++ [{ e with span := e.span ++ u }] := by
  simp [appendText, set_concat_length]

theorem take_append_charAt (r : JSString) (k : Nat) (hk : k < r.length) :
    r.take k ++ charAt r k = r.take (k + 1) := by
  rw [List.take_succ, charAt, List.getElem?_eq_getElem hk]
  rfl

/-- While the reveal has not run past the end of the reply, the page is the
settled page with the first `k` units in the bot entry and the counter at `k`. -/
theorem revealing_eq (s : Page) (ok : Bool) (r : JSString) (k : Nat) (hk : k ≤ r.length) :
    revealing s ok r k =
      { s with
        chatBox := s.chatBox ++ [⟨Role.bot, r.take k⟩]
        timers := s.timers ++ [some ⟨s.chatBox.length, Body.replyString r, k⟩]
        files := []
        log := s.log ++ [Effect.appendChild Role.bot] } := by
  induction k with
  | zero => simp [revealing, ticks, submitSettle]
  | succ k ih =>
    have hk1 : k < r.length := hk
    have ih1 := ih (Nat.le_of_lt hk1)
    unfold revealing at ih1 ⊢
    rw [ticks_succ, ih1]
    simp [tick, hk1, appendText_concat, set_concat_length, take_append_charAt]

/-- Once the timer has fired more often than the reply is long, it is cleared
and the bot entry holds the whole reply. -/
theorem revealing_done (s : Page) (ok : Bool) (r : JSString) (n : Nat) (hn : r.length < n) :
    revealing s ok r n =
      { s with
        chatBox := s.chatBox ++ [⟨Role.bot, r⟩]
        timers := s.timers ++ [none]
        files := []
        log := s.log ++ [Effect.appendChild Role.bot] } := by
  induction n with
  | zero => omega
  | succ n ih =>
    unfold revealing at ih ⊢
    rw [ticks_succ]
    rcases Nat.lt_or_ge r.length n with h | h
    · rw [ih h]
      simp [tick]
    · have hn1 : n = r.length := by omega
      have h2 := revealing_eq s ok r n (by omega)
      unfold revealing at h2
      rw [h2, hn1]
      simp [tick, clearTimer, set_concat_length]

theorem shown_revealing (s : Page) (ok : Bool) (r : JSString) (k : Nat) :
    shown (revealing s ok r k) s.chatBox.length = some (r.take k) := by
  rcases Nat.lt_or_ge r.length k with h | h
  · rw [revealing_done s ok r k h]
    simp [shown, List.take_of_length_le (Nat.le_of_lt h)]
  · rw [revealing_eq s ok r k h]
    simp [shown]

theorem armed_revealing (s : Page) (ok : Bool) (r : JSString) (k : Nat) :
    armed (revealing s ok r k) s.timers.length = decide (k ≤ r.length) := by
  rcases Nat.lt_or_ge r.length k with h | h
  · rw [revealing_done s ok r k h]
    simp [armed, h]
  · rw [revealing_eq s ok r k h]
    simp [armed, h]

/-- C4: a reveal of reply `r` started on the freshly appended bot entry shows,
after `k` firings of its timer, exactly the first `k` units of `r` (all of `r`
from `|r|` firings on); the timer is armed up to firing `|r|` and cleared by
firing `|r| + 1`; and from then on further firings change nothing, so the page
stays as it is with the entry showing `r`. -/
theorem reveal_shows_first_units (s : Page) (ok : Bool) (r : JSString) :
    (∀ k, shown (revealing s ok r k) s.chatBox.length = some (r.take k)) ∧
      (∀ k, armed (revealing s ok r k) s.timers.length = decide (k ≤ r.length)) ∧
      shown (revealing s ok r r.length) s.chatBox.length = some r ∧
      armed (revealing s ok r r.length) s.timers.length = true ∧
      armed (revealing s ok r (r.length + 1)) s.timers.length = false ∧
      (∀ n, revealing s ok r (r.length + 1 + n) = revealing s ok r (r.length + 1)) ∧
      (∀ n, shown (revealing s ok r (r.length + n)) s.chatBox.length = some r) := by
  refine ⟨shown_revealing s ok r, armed_revealing s ok r, ?_, ?_, ?_, ?_, ?_⟩
  · simpa using shown_revealing s ok r r.length
  · simpa using armed_revealing s ok r r.length
  · simpa using armed_revealing s ok r (r.length + 1)
  · intro n
    rw [revealing_done s ok r _ (by omega), revealing_done s ok r _ (by omega)]
  · intro n
    simpa [List.take_of_length_le] using shown_revealing s ok r (r.length + n)

theorem appendText_length (box : List Entry) (idx : Nat) (u : JSString) :
    (appendText box idx u).length = box.length := by
  unfold appendText
  split <;> simp

theorem appendText_append_left (box more : List Entry) (idx : Nat) (u : JSString)
    (h : idx < box.length) :
    appendText (box ++ more) idx u = appendText box idx u ++ more := by
  unfold appendText
  rw [List.getElem?_append_left h]
  split
  · rw [List.set_append_left _ _ h]
  · rfl

theorem targetsExist_span (s : Page) (id : Nat) (t : Interval)
    (hwf : targetsExist s = true) (ht : s.timers[id]? = some (some t)) :
    t.span < s.chatBox.length := by
  have hmem : some t ∈ s.timers := List.mem_iff_getElem?.2 ⟨id, ht⟩
  have h := List.all_eq_true.1 hwf (some t) hmem
  simpa using h

theorem targetsExist_iff (s : Page) :
    targetsExist s = true ↔ ∀ x, some x ∈ s.timers → x.span < s.chatBox.length := by
  unfold targetsExist
  rw [List.all_eq_true]
  constructor
  · intro h x hx
    simpa using h (some x) hx
  · intro h t ht
    cases t with
    | none => rfl
    | some x => simpa using h x ht

theorem targetsExist_tick (s : Page) (id : Nat) (h : targetsExist s = true) :
    targetsExist (tick id s) = true := by
  rw [targetsExist_iff] at h ⊢
  unfold tick
  rcases hlook : s.timers[id]? with _ | _ | t
  · exact h
  · exact h
  · have hspan : t.span < s.chatBox.length := h t (List.mem_iff_getElem?.2 ⟨id, hlook⟩)
    have hset : ∀ (u : Option Interval) (len : Nat), len = s.chatBox.length →
        (∀ y, u = some y → y.span = t.span) →
        ∀ x, some x ∈ s.timers.set id u → x.span < len := by
      intro u len hlen hu x hx
      rcases List.mem_or_eq_of_mem_set hx with hm | he
      · rw [hlen]
        exact h x hm
      · rw [hu x he.symm, hlen]
        exact hspan
    simp only
    rcases hd : t.data with _ | _ | _ | r | _ | n
    · exact h
    · exact h
    · exact h
    · by_cases hi : t.i < r.length
      · simp only [hi, if_true]
        exact hset _ _ (appendText_length _ _ _) (by intro y hy; cases hy; rfl)
      · simp only [hi, if_false, clearTimer]
        exact hset _ _ rfl (by intro y hy; cases hy)
    · simp only [clearTimer]
      exact hset _ _ rfl (by intro y hy; cases hy)
    · by_cases hi : t.i < n
      · simp only [hi, if_true]
        exact hset _ _ rfl (by intro y hy; cases hy; rfl)
      · simp only [hi, if_false, clearTimer]
        exact hset _ _ rfl (by intro y hy; cases hy)

theorem targetsExist_submitSettle (o : Outcome) (s : Page) (h : targetsExist s = true) :
    targetsExist (submitSettle o s) = true := by
  rw [targetsExist_iff] at h ⊢
  have key : ∀ (b : Body) (x : Interval),
      some x ∈ s.timers ++ [some ⟨s.chatBox.length, b, 0⟩] →
        x.span < (s.chatBox ++ [(⟨Role.bot, []⟩ : Entry)]).length := by
    intro b x hx
    rw [List.length_append, List.length_singleton]
    rcases List.mem_append.1 hx with hm | hm
    · exact Nat.lt_succ_of_lt (h x hm)
    · simp only [List.mem_singleton, Option.some.injEq] at hm
      rw [hm]
      exact Nat.lt_succ_self _
  cases o with
  | rejected => exact h
  | response ok b =>
    cases b with
    | notJson => exact h
    | nullish => exact key _
    | replyAbsent => exact key _
    | replyString r => exact key _
    | replyNoLength => exact key _
    | replyArray n => exact key _

theorem targetsExist_step (s : Page) (e : Event) (h : targetsExist s = true) :
    targetsExist (step s e) = true := by
  cases e with
  | submitted =>
    show targetsExist (if skipped s then s else submitSend s) = true
    by_cases hs : skipped s = true
    · rw [if_pos hs]
      exact h
    · rw [if_neg hs]
      rw [targetsExist_iff] at h ⊢
      intro x hx
      have := h x hx
      simp only [submitSend, List.length_append, List.length_singleton]
      omega
  | settled o => exact targetsExist_submitSettle o s h
  | timer id => exact targetsExist_tick s id h
  | micClicked =>
    rw [targetsExist_iff] at h ⊢
    simp only [step, micClick]
    split
    · split
      · exact h
      · exact h
    · exact h
  | result id text =>
    rw [targetsExist_iff] at h ⊢
    simp only [step, onResult]
    split <;> exact h
  | error id =>
    rw [targetsExist_iff] at h ⊢
    simp only [step, onError]
    split <;> exact h
  | ended id =>
    rw [targetsExist_iff] at h ⊢
    simp only [step, onEnd]
    split <;> exact h
  | typed text => exact h

/-- On every page reached from one where the timers write to existing entries,
the timers write to existing entries. -/
theorem targetsExist_run (es : List Event) (s : Page) (h : targetsExist s = true) :
    targetsExist (run s es) = true := by
  induction es generalizing s with
  | nil => exact h
  | cons e es ih => exact ih (step s e) (targetsExist_step s e h)

/-- A firing of an earlier timer and the arrival of a response commute. -/
theorem tick_submitSettle_comm (o : Outcome) (s : Page) (id : Nat)
    (hwf : targetsExist s = true) (hid : id < s.timers.length) :
    tick id (submitSettle o s) = submitSettle o (tick id s) := by
  have key : ∀ (b : Body),
      tick id { s with
          chatBox := s.chatBox ++ [⟨Role.bot, []⟩]
          timers := s.timers ++ [some ⟨s.chatBox.length, b, 0⟩]
          files := []
          log := s.log ++ [Effect.appendChild Role.bot] } =
        { tick id s with
          chatBox := (tick id s).chatBox ++ [⟨Role.bot, []⟩]
          timers := (tick id s).timers ++ [some ⟨(tick id s).chatBox.length, b, 0⟩]
          files := []
          log := (tick id s).log ++ [Effect.appendChild Role.bot] } := by
    intro b
    unfold tick
    simp only [List.getElem?_append_left hid]
    rcases hlook : s.timers[id]? with _ | _ | t
    · simp
    · simp
    · have hspan := targetsExist_span s id t hwf hlook
      simp only
      rcases hd : t.data with _ | _ | _ | r | _ | n
      · simp
      · simp
      · simp
      · by_cases hi : t.i < r.length
        · simp [hi, appendText_append_left _ _ _ _ hspan, List.set_append_left _ _ hid,
            appendText_length]
        · simp [hi, clearTimer, List.set_append_left _ _ hid]
      · simp [clearTimer, List.set_append_left _ _ hid]
      · by_cases hi : t.i < n
        · simp [hi, List.set_append_left _ _ hid]
        · simp [hi, clearTimer, List.set_append_left _ _ hid]
  have thrown :
      tick id { s with files := [], log := s.log ++ [Effect.alert Alert.sendError] } =
        { tick id s with
          files := [], log := (tick id s).log ++ [Effect.alert Alert.sendError] } := by
    unfold tick
    simp only
    rcases hlook : s.timers[id]? with _ | _ | t
    · simp
    · simp
    · simp only
      rcases hd : t.data with _ | _ | _ | r | _ | n
      · simp
      · simp
      · simp
      · by_cases hi : t.i < r.length
        · simp [hi]
        · simp [hi, clearTimer]
      · simp [clearTimer]
      · by_cases hi : t.i < n
        · simp [hi]
        · simp [hi, clearTimer]
  cases o with
  | rejected => simpa [submitSettle] using thrown
  | response ok b =>
    cases b with
    | notJson => simpa [submitSettle] using thrown
    | nullish => simpa [submitSettle] using key Body.nullish
    | replyAbsent => simpa [submitSettle] using key Body.replyAbsent
    | replyString r => simpa [submitSettle] using key (Body.replyString r)
    | replyNoLength => simpa [submitSettle] using key Body.replyNoLength
    | replyArray n => simpa [submitSettle] using key (Body.replyArray n)

/-- C5, as stated, fails: when the reply "Yo" arrives while the reveal of
"Hi" has shown only "H", the earlier timer stays armed next to the new one,
and the earlier entry still shows "H", also after the new reveal's first
tick. -/
theorem second_reveal_leaves_first_pending :
    Page.secondReply.timers
        = [some ⟨1, Body.replyString [72, 105], 1⟩, some ⟨3, Body.replyString [89, 111], 0⟩] ∧
      armed Page.secondReply 0 = true ∧ armed Page.secondReply 1 = true ∧
      shown Page.secondReply 1 = some [72] ∧
      shown (tick 1 Page.secondReply) 1 = some [72] ∧
      armed (tick 1 Page.secondReply) 0 = true := by
  decide

/-- C5, amended: the arrival of a response leaves every earlier timer and every
earlier transcript entry as it was, so an earlier reveal is neither cancelled
nor completed, and a later firing of an earlier timer does exactly what it
would have done before the response arrived: the reveals run side by side. -/
theorem new_reveal_leaves_earlier_reveals (o : Outcome) (s : Page) (id : Nat)
    (hwf : targetsExist s = true) (hid : id < s.timers.length) :
    (submitSettle o s).timers.take s.timers.length = s.timers ∧
      (submitSettle o s).chatBox.take s.chatBox.length = s.chatBox ∧
      armed (submitSettle o s) id = armed s id ∧
      tick id (submitSettle o s) = submitSettle o (tick id s) := by
  refine ⟨?_, ?_, ?_, tick_submitSettle_comm o s id hwf hid⟩
  · cases o with
    | rejected => simp [submitSettle]
    | response ok b => cases b <;> simp [submitSettle]
  · cases o with
    | rejected => simp [submitSettle]
    | response ok b => cases b <;> simp [submitSettle]
  · cases o with
    | rejected => simp [submitSettle, armed]
    | response ok b => cases b <;> simp [submitSettle, armed, List.getElem?_append_left hid]

theorem new_reveal_leaves_earlier_reveals_witness :
    (targetsExist Page.midReveal = true ∧ 0 < Page.midReveal.timers.length) ∧
      ((submitSettle (Outcome.response true (Body.replyString [89, 111]))
            Page.midReveal).timers.take Page.midReveal.timers.length = Page.midReveal.timers ∧
        (submitSettle (Outcome.response true (Body.replyString [89, 111]))
            Page.midReveal).chatBox.take Page.midReveal.chatBox.length
          = Page.midReveal.chatBox ∧
        armed (submitSettle (Outcome.response true (Body.replyString [89, 111]))
            Page.midReveal) 0 = armed Page.midReveal 0 ∧
        tick 0 (submitSettle (Outcome.response true (Body.replyString [89, 111]))
            Page.midReveal)
          = submitSettle (Outcome.response true (Body.replyString [89, 111]))
              (tick 0 Page.midReveal)) :=
  ⟨⟨by decide, by decide⟩,
    new_reveal_leaves_earlier_reveals (Outcome.response true (Body.replyString [89, 111]))
      Page.midReveal 0 (by decide) (by decide)⟩

/-! ## Speak button: properties -/

theorem revealing_chatBox (s : Page) (ok : Bool) (r : JSString) (k : Nat) :
    (revealing s ok r k).chatBox = s.chatBox ++ [⟨Role.bot, r.take k⟩] := by
  rcases Nat.lt_or_ge r.length k with h | h
  · rw [revealing_done s ok r k h, List.take_of_length_le (Nat.le_of_lt h)]
  · rw [revealing_eq s ok r k h]

theorem revealing_input (s : Page) (ok : Bool) (r : JSString) (k : Nat) :
    (revealing s ok r k).input = s.input := by
  rcases Nat.lt_or_ge r.length k with h | h
  · rw [revealing_done s ok r k h]
  · rw [revealing_eq s ok r k h]

theorem revealing_selectedVoice (s : Page) (ok : Bool) (r : JSString) (k : Nat) :
    (revealing s ok r k).selectedVoice = s.selectedVoice := by
  rcases Nat.lt_or_ge r.length k with h | h
  · rw [revealing_done s ok r k h]
  · rw [revealing_eq s ok r k h]

theorem flatMap_entrySpans_quiet (spansIn : JSString → List JSString) (after : List Entry)
    (h : ∀ e ∈ after, e.role = Role.user ∧ spansIn e.span = []) :
    after.flatMap (entrySpans spansIn) = [] := by
  induction after with
  | nil => rfl
  | cons e l ih =>
    have he := h e (List.mem_cons_self e l)
    have hl := ih fun x hx => h x (List.mem_cons_of_mem e hx)
    simp [List.flatMap_cons, entrySpans, he.1, he.2, hl]

theorem speakClick_of_botSpans (spansIn : JSString → List JSString) (s : Page)
    (found : List JSString) (text : JSString) (h : botSpans spansIn s = found ++ [text]) :
    speakClick spansIn s =
      { s with
        log := s.log ++ [Effect.synthesisCancel, Effect.synthesisSpeak text s.selectedVoice] } := by
  simp [speakClick, h]

/-- The last matching span is that of a bot entry when every entry after it is a
user entry whose message holds no such span. -/
theorem speakClick_of_last_bot (spansIn : JSString → List JSString) (s : Page)
    (before : List Entry) (text : JSString) (after : List Entry)
    (h : s.chatBox = before ++ ⟨Role.bot, text⟩ :: after)
    (hq : ∀ e ∈ after, e.role = Role.user ∧ spansIn e.span = []) :
    speakClick spansIn s =
      { s with
        log := s.log ++ [Effect.synthesisCancel, Effect.synthesisSpeak text s.selectedVoice] } := by
  apply speakClick_of_botSpans spansIn s (before.flatMap (entrySpans spansIn)) text
  simp [botSpans, h, List.flatMap_append, List.flatMap_cons, entrySpans,
    flatMap_entrySpans_quiet spansIn after hq]

/-- C8, as stated, fails twice.  After one tick of the reveal of "Hi" the speak
button hands "H" to speech synthesis, not the full reply "Hi".  And on a page
whose transcript holds no bot entry, only the user message
`<div class="message bot"><span>X</span></div>`, the speak button does not do
nothing: it hands "X" to speech synthesis. -/
theorem speak_mid_reveal_reads_shown_text :
    Page.midReveal.timers = [some ⟨1, Body.replyString [72, 105], 1⟩] ∧
      (speakClick sampleSpans Page.midReveal).log
        = Page.midReveal.log ++ [Effect.synthesisCancel, Effect.synthesisSpeak [72] none] ∧
      Page.injected.chatBox = [⟨Role.user, injectedMarkup⟩] ∧
      (speakClick sampleSpans Page.injected).log
        = Page.injected.log ++ [Effect.synthesisCancel, Effect.synthesisSpeak [88] none] := by
  decide

/-- C8, amended: the speak button hands to speech synthesis the text currently
shown in the last span inside a `.message.bot` element of the page, whatever
the HTML parser `spansIn` makes of the user messages.  When every entry after
the most recent bot entry is a user entry without such a span, that is the bot
entry's shown text: while its reveal of `r` has made `k` ticks the first `k`
code units of `r`, the whole of `r` from `|r|` ticks on, also after a further
message has been sent.  When the last such span comes from the markup of a user
message, that span is spoken.  With no such span on the page the button does
nothing. -/
theorem speak_reads_shown_text (spansIn : JSString → List JSString) (s : Page) :
    (∀ before text after, s.chatBox = before ++ ⟨Role.bot, text⟩ :: after →
        (∀ e ∈ after, e.role = Role.user ∧ spansIn e.span = []) →
        speakClick spansIn s =
          { s with
            log := s.log
              ++ [Effect.synthesisCancel, Effect.synthesisSpeak text s.selectedVoice] }) ∧
      (∀ before m found text after, s.chatBox = before ++ ⟨Role.user, m⟩ :: after →
        spansIn m = found ++ [text] →
        (∀ e ∈ after, e.role = Role.user ∧ spansIn e.span = []) →
        speakClick spansIn s =
          { s with
            log := s.log
              ++ [Effect.synthesisCancel, Effect.synthesisSpeak text s.selectedVoice] }) ∧
      (∀ ok r k, (speakClick spansIn (revealing s ok r k)).log
        = (revealing s ok r k).log
          ++ [Effect.synthesisCancel, Effect.synthesisSpeak (r.take k) s.selectedVoice]) ∧
      (∀ ok r n, (speakClick spansIn (revealing s ok r (r.length + n))).log
        = (revealing s ok r (r.length + n)).log
          ++ [Effect.synthesisCancel, Effect.synthesisSpeak r s.selectedVoice]) ∧
      (∀ ok r k, spansIn (trim s.input) = [] →
        (speakClick spansIn (submitSend (revealing s ok r k))).log
          = (submitSend (revealing s ok r k)).log
            ++ [Effect.synthesisCancel, Effect.synthesisSpeak (r.take k) s.selectedVoice]) ∧
      (botSpans spansIn s = [] → speakClick spansIn s = s) := by
  have mid : ∀ ok r k, (speakClick spansIn (revealing s ok r k)).log
        = (revealing s ok r k).log
          ++ [Effect.synthesisCancel, Effect.synthesisSpeak (r.take k) s.selectedVoice] := by
    intro ok r k
    rw [speakClick_of_last_bot spansIn (revealing s ok r k) s.chatBox (r.take k) []
      (revealing_chatBox s ok r k) (by simp), revealing_selectedVoice]
  refine ⟨?_, ?_, mid, ?_, ?_, ?_⟩
  · intro before text after h hq
    exact speakClick_of_last_bot spansIn s before text after h hq
  · intro before m found text after h hm hq
    apply speakClick_of_botSpans spansIn s (before.flatMap (entrySpans spansIn) ++ found) text
    simp [botSpans, h, List.flatMap_append, List.flatMap_cons, entrySpans, hm,
      flatMap_entrySpans_quiet spansIn after hq]
  · intro ok r n
    simpa [List.take_of_length_le] using mid ok r (r.length + n)
  · intro ok r k hm
    rw [speakClick_of_last_bot spansIn (submitSend (revealing s ok r k)) s.chatBox (r.take k)
      [⟨Role.user, trim s.input⟩]
      (by simp [submitSend, revealing_chatBox, revealing_input])
      (by simpa using hm)]
    simp [submitSend, revealing_selectedVoice]
  · intro h
    simp [speakClick, h]

/-! ## Reveal timer and character boundaries -/

/-- C10, as stated, fails: one tick into the reveal of a reply that is a single
surrogate pair (U+1F600), the bot entry shows the lone high surrogate. -/
theorem reveal_splits_surrogate_pair :
    shown (revealing Page.fresh true [0xD83D, 0xDE00] 1) 0 = some [0xD83D] ∧
      splitsPair [0xD83D, 0xDE00] 1 = true := by
  decide

/-- C10, amended: at tick `k` the bot entry shows the reply cut after `k` UTF-16
code units, and the reveal passes through every such cut: however the reply is
written as a front part followed by a back part, the front part alone is what
the entry shows at tick `|front|`, also when the cut falls inside a surrogate
pair or another character of several code units. -/
theorem reveal_by_code_units (s : Page) (ok : Bool) (r : JSString) (k : Nat)
    (front back : JSString) :
    shown (revealing s ok r k) s.chatBox.length = some (r.take k) ∧
      shown (revealing s ok (front ++ back) front.length) s.chatBox.length = some front := by
  refine ⟨shown_revealing s ok r k, ?_⟩
  have h := shown_revealing s ok (front ++ back) front.length
  rwa [List.take_left'] at h
  rfl

/-! ## Microphone toggle: properties -/

/-- C6: on a platform with speech recognition, or on an idle page, two clicks on
the mic button in a row restore whether a session handle is held and the
matching button label; from a page with no session they end with `recognition`
null and the idle label. -/
theorem mic_two_toggles (s : Page)
    (hcap : s.hasRecognition = true ∨ (s.recognition = none ∧ s.micLabel = MicLabel.idle)) :
    (micClick (micClick s)).recognition.isSome = s.recognition.isSome ∧
      (micClick (micClick s)).micLabel
        = (if s.recognition.isSome then MicLabel.listening else MicLabel.idle) ∧
      (s.recognition = none →
        (micClick (micClick s)).recognition = none ∧
          (micClick (micClick s)).micLabel = MicLabel.idle) := by
  rcases hr : s.recognition with _ | r
  · rcases hcap with hc | ⟨_, hl⟩
    · simp [micClick, hr, hc]
    · cases hc : s.hasRecognition <;> simp [micClick, hr, hc, hl]
  · rcases hcap with hc | ⟨hn, _⟩
    · simp [micClick, hr, hc]
    · rw [hr] at hn
      cases hn

theorem mic_two_toggles_witness :
    (Page.fresh.hasRecognition = true ∨
        (Page.fresh.recognition = none ∧ Page.fresh.micLabel = MicLabel.idle)) ∧
      ((micClick (micClick Page.fresh)).recognition.isSome = Page.fresh.recognition.isSome ∧
        (micClick (micClick Page.fresh)).micLabel
          = (if Page.fresh.recognition.isSome then MicLabel.listening else MicLabel.idle) ∧
        (Page.fresh.recognition = none →
          (micClick (micClick Page.fresh)).recognition = none ∧
            (micClick (micClick Page.fresh)).micLabel = MicLabel.idle)) :=
  ⟨Or.inl (by decide), mic_two_toggles Page.fresh (Or.inl (by decide))⟩

/-- C7 fails on the code: after start, stop, start and the late `end` event of
the first session, the second session is still live and was never stopped, yet
`recognition` is null and the button shows the idle label; the next click then
starts a third session next to it, so two sessions are live at once. -/
theorem stale_end_orphans_live_session :
    live Page.staleEnd 1 = true ∧
      Page.staleEnd.recognition = none ∧
      Page.staleEnd.micLabel = MicLabel.idle ∧
      Effect.recognitionStop 1 ∉ Page.staleEnd.log ∧
      (micClick Page.staleEnd).recognition = some 2 ∧
      (micClick Page.staleEnd).sessions = [false, true, true] ∧
      liveCount (micClick Page.staleEnd) = 2 ∧
      Effect.recognitionStop 1 ∉ (micClick Page.staleEnd).log := by
  decide

/-! ## Export: properties -/

theorem hexValue_hexDigit (d : Nat) (h : d < 16) : hexValue (hexDigit d) = some d := by
  interval_cases d <;> rfl

theorem hex_digits_sum (c : Nat) (h : c < 65536) :
    4096 * (c / 4096 % 16) + 256 * (c / 256 % 16) + 16 * (c / 16 % 16) + c % 16 = c := by
  omega

/-- Reading an ordinary character: neither a quote, a backslash nor a control
character. -/
theorem parseChars_plain (fuel c : Nat) (t : JSString)
    (h1 : c ≠ 34) (h2 : c ≠ 92) (h3 : ¬ c < 32) :
    parseChars (fuel + 1) (c :: t) = consUnit c (parseChars fuel t) := by
  simp [parseChars, h1, h2, h3]

theorem parseChars_unicodeEscape (fuel c : Nat) (t : JSString) (h : c < 65536) :
    parseChars (fuel + 1) (unicodeEscape c ++ t) = consUnit c (parseChars fuel t) := by
  have e1 := hexValue_hexDigit (c / 4096 % 16) (Nat.mod_lt _ (by decide))
  have e2 := hexValue_hexDigit (c / 256 % 16) (Nat.mod_lt _ (by decide))
  have e3 := hexValue_hexDigit (c / 16 % 16) (Nat.mod_lt _ (by decide))
  have e4 := hexValue_hexDigit (c % 16) (Nat.mod_lt _ (by decide))
  show parseChars (fuel + 1)
      (92 :: 117 :: hexDigit (c / 4096 % 16) :: hexDigit (c / 256 % 16) ::
        hexDigit (c / 16 % 16) :: hexDigit (c % 16) :: t) = _
  simp [parseChars, e1, e2, e3, e4, hex_digits_sum c h]

/-- Reading back what `escapeUnit` wrote gives the code unit. -/
theorem parseChars_escapeUnit (fuel c : Nat) (t : JSString) :
    parseChars (fuel + 1) (escapeUnit c ++ t) = consUnit c (parseChars fuel t) := by
  unfold escapeUnit
  split_ifs with h8 h9 h10 h12 h13 h34 h92 hesc
  · subst h8; simp [parseChars, unescape]
  · subst h9; simp [parseChars, unescape]
  · subst h10; simp [parseChars, unescape]
  · subst h12; simp [parseChars, unescape]
  · subst h13; simp [parseChars, unescape]
  · subst h34; simp [parseChars, unescape]
  · subst h92; simp [parseChars, unescape]
  · apply parseChars_unicodeEscape
    simp only [isHighSurrogate, isLowSurrogate, Bool.or_eq_true, Bool.and_eq_true,
      decide_eq_true_eq] at hesc
    omega
  · simp only [isHighSurrogate, isLowSurrogate, Bool.or_eq_true, Bool.and_eq_true,
      decide_eq_true_eq, not_or] at hesc
    exact parseChars_plain fuel c t h34 h92 hesc.1.1

theorem escapeUnit_length_pos (c : Nat) : 0 < (escapeUnit c).length := by
  unfold escapeUnit
  split_ifs <;> simp [unicodeEscape]

theorem quoteUnits_length (s : JSString) : s.length ≤ (quoteUnits s).length := by
  induction s using quoteUnits.induct with
  | case1 => simp [quoteUnits]
  | case2 c =>
    have := escapeUnit_length_pos c
    simpa [quoteUnits] using this
  | case3 c d rest hp ih =>
    simp only [quoteUnits, hp, if_true, List.length_cons]
    omega
  | case4 c d rest hp ih =>
    have := escapeUnit_length_pos c
    simp only [quoteUnits, hp, List.length_append, List.length_cons] at ih ⊢
    simp only [Bool.false_eq_true, if_false, List.length_append]
    omega

theorem high_surrogate_plain (c : Nat) (h : isHighSurrogate c = true) :
    c ≠ 34 ∧ c ≠ 92 ∧ ¬ c < 32 := by
  simp only [isHighSurrogate, Bool.and_eq_true, decide_eq_true_eq] at h
  omega

theorem low_surrogate_plain (c : Nat) (h : isLowSurrogate c = true) :
    c ≠ 34 ∧ c ≠ 92 ∧ ¬ c < 32 := by
  simp only [isLowSurrogate, Bool.and_eq_true, decide_eq_true_eq] at h
  omega

/-- Reading back a quoted string body up to its closing quote gives the string
and the input after the quote. -/
theorem parseChars_quoteUnits (s : JSString) :
    ∀ (fuel : Nat) (rest : JSString), s.length < fuel →
      parseChars fuel (quoteUnits s ++ 34 :: rest) = some (s, rest) := by
  induction s using quoteUnits.induct with
  | case1 =>
    intro fuel rest hf
    obtain ⟨f, rfl⟩ : ∃ f, fuel = f + 1 := ⟨fuel - 1, by simp at hf; omega⟩
    simp [quoteUnits, parseChars]
  | case2 c =>
    intro fuel rest hf
    obtain ⟨f, rfl⟩ : ∃ f, fuel = f + 2 := ⟨fuel - 2, by simp at hf; omega⟩
    show parseChars (f + 1 + 1) (escapeUnit c ++ 34 :: rest) = _
    rw [parseChars_escapeUnit]
    simp [parseChars, consUnit]
  | case3 c d rest1 hp ih =>
    intro fuel rest hf
    obtain ⟨f, rfl⟩ : ∃ f, fuel = f + 2 := ⟨fuel - 2, by simp at hf; omega⟩
    simp only [Bool.and_eq_true] at hp
    obtain ⟨c1, c2, c3⟩ := high_surrogate_plain c hp.1
    obtain ⟨d1, d2, d3⟩ := low_surrogate_plain d hp.2
    have hq : quoteUnits (c :: d :: rest1) = c :: d :: quoteUnits rest1 := by
      simp [quoteUnits, hp.1, hp.2]
    rw [hq]
    show parseChars (f + 1 + 1) (c :: d :: (quoteUnits rest1 ++ 34 :: rest)) = _
    rw [parseChars_plain _ c _ c1 c2 c3, parseChars_plain _ d _ d1 d2 d3,
      ih f rest (by simp at hf; omega)]
    simp [consUnit]
  | case4 c d rest1 hp ih =>
    intro fuel rest hf
    obtain ⟨f, rfl⟩ : ∃ f, fuel = f + 1 := ⟨fuel - 1, by simp at hf; omega⟩
    have hq : quoteUnits (c :: d :: rest1) = escapeUnit c ++ quoteUnits (d :: rest1) := by
      simp [quoteUnits, hp]
    rw [hq, List.append_assoc, parseChars_escapeUnit, ih f rest (by simp at hf ⊢; omega)]
    simp [consUnit]

theorem intercalate_cons_cons {α : Type} (sep a b : List α) (l : List (List α)) :
    sep.intercalate (a :: b :: l) = a ++ (sep ++ sep.intercalate (b :: l)) := by
  simp [List.intercalate]

theorem intercalate_singleton {α : Type} (sep a : List α) :
    sep.intercalate [a] = a := by
  simp [List.intercalate]

theorem skipSpace_quote (m t : JSString) :
    skipSpace (quoteJSONString m ++ t) = quoteJSONString m ++ t := by
  simp [skipSpace, quoteJSONString, isJsonSpace, List.dropWhile]

theorem skipSpace_elements (m : JSString) (ms : List JSString) (t : JSString) :
    skipSpace ([44, 10, 32, 32].intercalate ((m :: ms).map quoteJSONString) ++ t)
      = [44, 10, 32, 32].intercalate ((m :: ms).map quoteJSONString) ++ t := by
  cases ms with
  | nil => simpa [intercalate_singleton] using skipSpace_quote m t
  | cons b l =>
    simp only [List.map_cons, intercalate_cons_cons, List.append_assoc]
    exact skipSpace_quote m _

theorem parseElements_quote (m : JSString) (fuel : Nat) (after : JSString) :
    parseElements (fuel + 1) (quoteJSONString m ++ after) =
      match skipSpace after with
      | [] => none
      | t :: r2 =>
        if t = 44 then
          (parseElements fuel (skipSpace r2)).map fun p => (m :: p.1, p.2)
        else if t = 93 then some ([m], r2)
        else none := by
  have hlen : m.length < (quoteUnits m ++ 34 :: after).length := by
    have := quoteUnits_length m
    simp
    omega
  show parseElements (fuel + 1) (34 :: (quoteUnits m ++ [34] ++ after)) = _
  have e : quoteUnits m ++ [34] ++ after = quoteUnits m ++ 34 :: after := by simp
  rw [e]
  simp only [parseElements, if_true, parseChars_quoteUnits m _ after hlen]

/-- Reading back the elements of a stringified non-empty array. -/
theorem parseElements_stringify (ms : List JSString) :
    ∀ (m : JSString) (fuel : Nat) (tail : JSString), ms.length < fuel →
      parseElements fuel
          ([44, 10, 32, 32].intercalate ((m :: ms).map quoteJSONString) ++ 10 :: 93 :: tail)
        = some (m :: ms, tail) := by
  induction ms with
  | nil =>
    intro m fuel tail hf
    obtain ⟨f, rfl⟩ : ∃ f, fuel = f + 1 := ⟨fuel - 1, by simp at hf; omega⟩
    simp only [List.map_cons, List.map_nil, intercalate_singleton]
    rw [parseElements_quote m f _]
    simp [skipSpace, isJsonSpace, List.dropWhile]
  | cons b l ih =>
    intro m fuel tail hf
    obtain ⟨f, rfl⟩ : ∃ f, fuel = f + 1 := ⟨fuel - 1, by simp at hf; omega⟩
    have hf1 : l.length < f := by simp at hf; omega
    simp only [List.map_cons, intercalate_cons_cons, List.append_assoc]
    rw [parseElements_quote m f _]
    have h1 : skipSpace ([44, 10, 32, 32] ++
        ([44, 10, 32, 32].intercalate (quoteJSONString b :: l.map quoteJSONString)
          ++ 10 :: 93 :: tail))
        = 44 :: 10 :: 32 :: 32 ::
          ([44, 10, 32, 32].intercalate ((b :: l).map quoteJSONString) ++ 10 :: 93 :: tail) := by
      simp [skipSpace, isJsonSpace, List.dropWhile]
    have h2 : skipSpace (10 :: 32 :: 32 ::
          ([44, 10, 32, 32].intercalate ((b :: l).map quoteJSONString) ++ 10 :: 93 :: tail))
        = [44, 10, 32, 32].intercalate ((b :: l).map quoteJSONString) ++ 10 :: 93 :: tail := by
      have := skipSpace_elements b l (10 :: 93 :: tail)
      simpa [skipSpace, isJsonSpace, List.dropWhile] using this
    rw [h1]
    simp only [if_true]
    rw [h2, ih b f tail hf1]
    rfl

theorem elements_length (ms : List JSString) :
    ∀ m : JSString,
      ms.length < ([44, 10, 32, 32].intercalate ((m :: ms).map quoteJSONString)).length := by
  induction ms with
  | nil =>
    intro m
    simp [intercalate_singleton, quoteJSONString]
  | cons b l ih =>
    intro m
    have := ih b
    simp only [List.map_cons, intercalate_cons_cons, List.length_append, List.length_cons] at this ⊢
    omega

theorem elements_head (m : JSString) (ms : List JSString) (t : JSString) :
    ∃ y, [44, 10, 32, 32].intercalate ((m :: ms).map quoteJSONString) ++ t = 34 :: y := by
  cases ms with
  | nil => exact ⟨_, by simp [intercalate_singleton, quoteJSONString]; rfl⟩
  | cons b l => exact ⟨_, by simp [intercalate_cons_cons, quoteJSONString]; rfl⟩

/-- Reading the text `JSON.stringify(messages, null, 2)` as JSON gives back the
messages. -/
theorem parseStringArray_stringify (messages : List JSString) :
    parseStringArray (stringify messages) = some messages := by
  cases messages with
  | nil => decide
  | cons m ms =>
    have hs : stringify (m :: ms) =
        91 :: 10 :: 32 :: 32 ::
          ([44, 10, 32, 32].intercalate ((m :: ms).map quoteJSONString) ++ 10 :: 93 :: []) := by
      simp [stringify]
    have hlen : ms.length < (stringify (m :: ms)).length := by
      have := elements_length ms m
      rw [hs]
      simp only [List.length_cons, List.length_append]
      omega
    have hparse := parseElements_stringify ms m (stringify (m :: ms)).length [] hlen
    have h2 := skipSpace_elements m ms (10 :: 93 :: [])
    obtain ⟨y, hy⟩ := elements_head m ms (10 :: 93 :: [])
    rw [hy] at hparse h2
    unfold parseStringArray
    have h1 : skipSpace (stringify (m :: ms)) = 91 :: 10 :: 32 :: 32 :: 34 :: y := by
      rw [hs, hy]
      simp [skipSpace, isJsonSpace, List.dropWhile]
    have h3 : skipSpace (10 :: 32 :: 32 :: 34 :: y) = 34 :: y := by
      simp [skipSpace, isJsonSpace, List.dropWhile]
    rw [h1]
    simp only [if_true, h3]
    rw [hparse]
    simp [skipSpace]

theorem toScalarValues_cons_plain (c : Nat) (t : JSString)
    (h1 : isHighSurrogate c = false) (h2 : isLowSurrogate c = false) :
    toScalarValues (c :: t) = c :: toScalarValues t := by
  cases t <;> simp [toScalarValues, h1, h2]

theorem toScalarValues_pair (c d : Nat) (t : JSString)
    (h1 : isHighSurrogate c = true) (h2 : isLowSurrogate d = true) :
    toScalarValues (c :: d :: t) = c :: d :: toScalarValues t := by
  simp [toScalarValues, h1, h2]

/-- The conversion to scalar values works on both sides of a unit that is not a
surrogate. -/
theorem toScalarValues_append_plain (a : JSString) (c : Nat) (b : JSString)
    (h1 : isHighSurrogate c = false) (h2 : isLowSurrogate c = false) :
    toScalarValues (a ++ c :: b) = toScalarValues a ++ c :: toScalarValues b := by
  induction a using toScalarValues.induct with
  | case1 => simpa [toScalarValues] using toScalarValues_cons_plain c b h1 h2
  | case2 x =>
    show toScalarValues (x :: c :: b) = _
    simp [toScalarValues, h2, toScalarValues_cons_plain c b h1 h2]
  | case3 x y rest hp ih =>
    show toScalarValues (x :: y :: (rest ++ c :: b)) = _
    simp only [Bool.and_eq_true] at hp
    rw [toScalarValues_pair x y _ hp.1 hp.2, ih, toScalarValues_pair x y _ hp.1 hp.2]
    rfl
  | case4 x y rest hp ih =>
    show toScalarValues (x :: y :: (rest ++ c :: b)) = _
    have ih1 : toScalarValues (y :: (rest ++ c :: b))
        = toScalarValues (y :: rest) ++ c :: toScalarValues b := ih
    simp only [toScalarValues, hp, Bool.false_eq_true, if_false, ih1, List.cons_append]

theorem toScalarValues_plain_append (p q : JSString)
    (h : ∀ x ∈ p, isHighSurrogate x = false ∧ isLowSurrogate x = false) :
    toScalarValues (p ++ q) = p ++ toScalarValues q := by
  induction p with
  | nil => rfl
  | cons x l ih =>
    have hx := h x (List.mem_cons_self x l)
    rw [List.cons_append, toScalarValues_cons_plain x _ hx.1 hx.2,
      ih fun y hy => h y (List.mem_cons_of_mem x hy)]
    rfl

theorem hexDigit_plain (d : Nat) (h : d < 16) :
    isHighSurrogate (hexDigit d) = false ∧ isLowSurrogate (hexDigit d) = false := by
  interval_cases d <;> decide

theorem escapeUnit_plain (c : Nat) :
    ∀ x ∈ escapeUnit c, isHighSurrogate x = false ∧ isLowSurrogate x = false := by
  unfold escapeUnit
  split_ifs with h8 h9 h10 h12 h13 h34 h92 hesc
  · decide
  · decide
  · decide
  · decide
  · decide
  · decide
  · decide
  · intro x hx
    simp only [unicodeEscape, List.mem_cons, List.mem_singleton, List.not_mem_nil,
      or_false] at hx
    rcases hx with rfl | rfl | rfl | rfl | rfl | rfl
    · decide
    · decide
    · exact hexDigit_plain _ (Nat.mod_lt _ (by decide))
    · exact hexDigit_plain _ (Nat.mod_lt _ (by decide))
    · exact hexDigit_plain _ (Nat.mod_lt _ (by decide))
    · exact hexDigit_plain _ (Nat.mod_lt _ (by decide))
  · intro x hx
    simp only [List.mem_singleton] at hx
    subst hx
    simp only [Bool.or_eq_true, not_or, Bool.not_eq_true] at hesc
    exact ⟨hesc.1.2, hesc.2⟩

/-- A quoted string body holds no lone surrogate. -/
theorem toScalarValues_quoteUnits (s : JSString) :
    ∀ t : JSString, toScalarValues (quoteUnits s ++ t) = quoteUnits s ++ toScalarValues t := by
  induction s using quoteUnits.induct with
  | case1 =>
    intro t
    simp [quoteUnits]
  | case2 c =>
    intro t
    exact toScalarValues_plain_append _ t (escapeUnit_plain c)
  | case3 c d rest hp ih =>
    intro t
    have hq : quoteUnits (c :: d :: rest) = c :: d :: quoteUnits rest := by
      simp [quoteUnits, hp]
    simp only [Bool.and_eq_true] at hp
    rw [hq]
    show toScalarValues (c :: d :: (quoteUnits rest ++ t)) = _
    rw [toScalarValues_pair c d _ hp.1 hp.2, ih t]
    rfl
  | case4 c d rest hp ih =>
    intro t
    have hq : quoteUnits (c :: d :: rest) = escapeUnit c ++ quoteUnits (d :: rest) := by
      simp [quoteUnits, hp]
    rw [hq, List.append_assoc, toScalarValues_plain_append _ _ (escapeUnit_plain c), ih t,
      List.append_assoc]

theorem toScalarValues_quote (m t : JSString) :
    toScalarValues (quoteJSONString m ++ t) = quoteJSONString m ++ toScalarValues t := by
  show toScalarValues (34 :: (quoteUnits m ++ [34] ++ t)) = 34 :: (quoteUnits m ++ [34]) ++ _
  rw [toScalarValues_cons_plain 34 _ (by decide) (by decide), List.append_assoc,
    toScalarValues_quoteUnits m]
  show 34 :: (quoteUnits m ++ toScalarValues (34 :: t)) = _
  rw [toScalarValues_cons_plain 34 _ (by decide) (by decide)]
  simp

theorem toScalarValues_elements (ms : List JSString) :
    ∀ (m : JSString) (t : JSString),
      toScalarValues ([44, 10, 32, 32].intercalate ((m :: ms).map quoteJSONString) ++ t)
        = [44, 10, 32, 32].intercalate ((m :: ms).map quoteJSONString) ++ toScalarValues t := by
  induction ms with
  | nil =>
    intro m t
    simpa [intercalate_singleton] using toScalarValues_quote m t
  | cons b l ih =>
    intro m t
    have ihb := ih b t
    simp only [List.map_cons] at ihb
    simp only [List.map_cons, intercalate_cons_cons, List.append_assoc]
    rw [toScalarValues_quote, toScalarValues_plain_append [44, 10, 32, 32] _ (by decide), ihb]

/-- The text `JSON.stringify` writes holds no lone surrogate: the conversion to
scalar values leaves it as it is. -/
theorem toScalarValues_stringify (messages : List JSString) :
    toScalarValues (stringify messages) = stringify messages := by
  cases messages with
  | nil => decide
  | cons m ms =>
    have hs : stringify (m :: ms) =
        [91, 10, 32, 32] ++
          ([44, 10, 32, 32].intercalate ((m :: ms).map quoteJSONString) ++ [10, 93]) := by
      simp [stringify]
    rw [hs, toScalarValues_plain_append [91, 10, 32, 32] _ (by decide),
      toScalarValues_elements ms m]
    have : toScalarValues [10, 93] = [10, 93] := by decide
    rw [this]

theorem toScalarValues_lines (ms : List JSString) :
    toScalarValues ([10].intercalate ms) = [10].intercalate (ms.map toScalarValues) := by
  induction ms with
  | nil => decide
  | cons a l ih =>
    cases l with
    | nil => simp [intercalate_singleton]
    | cons b l1 =>
      simp only [List.map_cons] at ih
      simp only [List.map_cons, intercalate_cons_cons]
      show toScalarValues (a ++ 10 :: [10].intercalate (b :: l1)) = _
      rw [toScalarValues_append_plain a 10 _ (by decide) (by decide), ih]
      rfl

theorem toScalarValues_bullets (ms : List JSString) :
    toScalarValues ([10].intercalate (ms.map fun m => [45, 32] ++ m))
      = [10].intercalate (ms.map fun m => [45, 32] ++ toScalarValues m) := by
  rw [toScalarValues_lines, List.map_map]
  congr 1
  apply List.map_congr_left
  intro m _
  exact toScalarValues_plain_append [45, 32] m (by decide)

theorem toLowerCase_eq_iff (answer : JSString) :
    ∀ word : JSString, (∀ w ∈ word, 97 ≤ w ∧ w ≤ 122) →
      (toLowerCase answer = word ↔ sameIgnoringCase answer word = true) := by
  induction answer with
  | nil =>
    intro word _
    cases word <;> simp [toLowerCase, sameIgnoringCase]
  | cons a l ih =>
    intro word hw
    cases word with
    | nil => simp [toLowerCase, sameIgnoringCase]
    | cons w ws =>
      have hw1 := hw w (List.mem_cons_self w ws)
      have ih1 := ih ws fun x hx => hw x (List.mem_cons_of_mem w hx)
      have hunit : (if 0x41 ≤ a ∧ a ≤ 0x5A then a + 32 else a) = w ↔ (a = w ∨ a + 32 = w) := by
        split_ifs with hc <;> omega
      simp only [toLowerCase, List.map_cons, List.cons.injEq] at ih1 ⊢
      simp only [sameIgnoringCase, Bool.and_eq_true, Bool.or_eq_true, beq_iff_eq,
        decide_eq_true_eq]
      rw [hunit, ih1]
      constructor
      · rintro ⟨h1, h2⟩
        exact ⟨h1.imp id fun h => ⟨⟨hw1.1, hw1.2⟩, h⟩, h2⟩
      · rintro ⟨h1, h2⟩
        exact ⟨h1.imp id fun h => h.2, h2⟩

/-- C9, as stated, fails: exported as "md", a transcript string that ends in a
lone high surrogate (an emoji caught half revealed) is not written as it is: the
file holds U+FFFD in place of the surrogate, so its content is not the strings
after "- " joined by line feeds. -/
theorem export_md_replaces_lone_surrogate :
    exportClick halfRevealed (some [109, 100])
        = some ⟨[109, 100], Mime.textPlain, [45, 32, 77, 105, 114, 97, 105, 58, 32, 0xFFFD]⟩ ∧
      [10].intercalate (halfRevealed.map fun m => [45, 32] ++ m)
        = [45, 32, 77, 105, 114, 97, 105, 58, 32, 0xD83D] ∧
      ([45, 32, 77, 105, 114, 97, 105, 58, 32, 0xFFFD] : JSString)
        ≠ [10].intercalate (halfRevealed.map fun m => [45, 32] ++ m) := by
  decide

/-- C9, amended: for a non-empty answer to the format prompt the export offers
a file.  When the answer is "json" in any mix of upper and lower case, the
extension is json and the content is the text of `JSON.stringify(messages,
null, 2)`, which read as JSON gives back exactly the transcript strings in
order.  When the answer is "md" in any mix of case, the extension is md and the
content is the strings, each after "- " and with every lone surrogate replaced
by U+FFFD, joined by line feeds.  For any other answer the extension is txt and
the content is the strings, with every lone surrogate replaced by U+FFFD, joined
by line feeds.  For strings without lone surrogates the md and txt contents are
the strings themselves, after "- " for md, joined by line feeds.  A cancelled or
empty prompt exports nothing. -/
theorem export_content (messages : List JSString) (answer : JSString) (h : answer ≠ []) :
    (∃ d, exportClick messages (some answer) = some d ∧
      (sameIgnoringCase answer [106, 115, 111, 110] = true →
        d.ext = [106, 115, 111, 110] ∧ d.type = Mime.applicationJson ∧
          d.content = stringify messages ∧
          parseStringArray d.content = some messages) ∧
      (sameIgnoringCase answer [109, 100] = true →
        d.ext = [109, 100] ∧ d.type = Mime.textPlain ∧
          d.content = [10].intercalate (messages.map fun m => [45, 32] ++ toScalarValues m) ∧
          ((∀ m ∈ messages, toScalarValues m = m) →
            d.content = [10].intercalate (messages.map fun m => [45, 32] ++ m))) ∧
      (sameIgnoringCase answer [106, 115, 111, 110] = false →
        sameIgnoringCase answer [109, 100] = false →
        d.ext = [116, 120, 116] ∧ d.type = Mime.textPlain ∧
          d.content = [10].intercalate (messages.map toScalarValues) ∧
          ((∀ m ∈ messages, toScalarValues m = m) →
            d.content = [10].intercalate messages))) ∧
      exportClick messages none = none ∧
      exportClick messages (some []) = none := by
  have hne : toLowerCase answer ≠ [] := by
    simpa [toLowerCase] using h
  have hjson := toLowerCase_eq_iff answer [106, 115, 111, 110] (by decide)
  have hmd := toLowerCase_eq_iff answer [109, 100] (by decide)
  have hbul : (∀ m ∈ messages, toScalarValues m = m) →
      [10].intercalate (messages.map fun m => [45, 32] ++ toScalarValues m)
        = [10].intercalate (messages.map fun m => [45, 32] ++ m) := by
    intro hw
    congr 1
    apply List.map_congr_left
    intro m hm
    rw [hw m hm]
  have hlin : (∀ m ∈ messages, toScalarValues m = m) →
      [10].intercalate (messages.map toScalarValues) = [10].intercalate messages := by
    intro hw
    congr 1
    conv_rhs => rw [← List.map_id messages]
    apply List.map_congr_left
    intro m hm
    rw [hw m hm]
    rfl
  refine ⟨?_, rfl, rfl⟩
  by_cases hj : toLowerCase answer = [106, 115, 111, 110]
  · refine ⟨⟨[106, 115, 111, 110], Mime.applicationJson, stringify messages⟩, ?_, ?_, ?_, ?_⟩
    · simp [exportClick, hj, toScalarValues_stringify]
    · intro _
      exact ⟨rfl, rfl, rfl, parseStringArray_stringify messages⟩
    · intro hm
      have hm1 := hmd.2 hm
      rw [hj] at hm1
      exact absurd hm1 (by decide)
    · intro hn
      rw [hjson.1 hj] at hn
      exact absurd hn (by decide)
  · have hjf : sameIgnoringCase answer [106, 115, 111, 110] ≠ true := fun hc => hj (hjson.2 hc)
    by_cases hm : toLowerCase answer = [109, 100]
    · refine ⟨⟨[109, 100], Mime.textPlain,
        [10].intercalate (messages.map fun m => [45, 32] ++ toScalarValues m)⟩, ?_, ?_, ?_, ?_⟩
      · have hb := toScalarValues_bullets messages
        simp only [exportClick, Option.map_some', hm, List.isEmpty_cons, Bool.false_eq_true,
          if_false, hb]
        simp
      · intro hj1
        exact absurd hj1 hjf
      · intro _
        exact ⟨rfl, rfl, rfl, hbul⟩
      · intro _ hn
        rw [hmd.1 hm] at hn
        exact absurd hn (by decide)
    · have hmf : sameIgnoringCase answer [109, 100] ≠ true := fun hc => hm (hmd.2 hc)
      refine ⟨⟨[116, 120, 116], Mime.textPlain,
        [10].intercalate (messages.map toScalarValues)⟩, ?_, ?_, ?_, ?_⟩
      · simp [exportClick, hj, hm, hne, List.isEmpty_iff, toScalarValues_lines]
      · intro hj1
        exact absurd hj1 hjf
      · intro hm1
        exact absurd hm1 hmf
      · intro _ _
        exact ⟨rfl, rfl, rfl, hlin⟩

theorem export_content_witness :
    ([74, 83, 79, 78] : JSString) ≠ [] ∧
      ((∃ d, exportClick sampleTranscript (some [74, 83, 79, 78]) = some d ∧
        (sameIgnoringCase [74, 83, 79, 78] [106, 115, 111, 110] = true →
          d.ext = [106, 115, 111, 110] ∧ d.type = Mime.applicationJson ∧
            d.content = stringify sampleTranscript ∧
            parseStringArray d.content = some sampleTranscript) ∧
        (sameIgnoringCase [74, 83, 79, 78] [109, 100] = true →
          d.ext = [109, 100] ∧ d.type = Mime.textPlain ∧
            d.content
              = [10].intercalate (sampleTranscript.map fun m => [45, 32] ++ toScalarValues m) ∧
            ((∀ m ∈ sampleTranscript, toScalarValues m = m) →
              d.content = [10].intercalate (sampleTranscript.map fun m => [45, 32] ++ m))) ∧
        (sameIgnoringCase [74, 83, 79, 78] [106, 115, 111, 110] = false →
          sameIgnoringCase [74, 83, 79, 78] [109, 100] = false →
          d.ext = [116, 120, 116] ∧ d.type = Mime.textPlain ∧
            d.content = [10].intercalate (sampleTranscript.map toScalarValues) ∧
            ((∀ m ∈ sampleTranscript, toScalarValues m = m) →
              d.content = [10].intercalate sampleTranscript))) ∧
        exportClick sampleTranscript none = none ∧
        exportClick sampleTranscript (some []) = none) :=
  ⟨by decide, export_content sampleTranscript [74, 83, 79, 78] (by decide)⟩

/-- The export of "You: Hi", "Mirai: Hello" on the answer "JSON": the answer
matches "json", and the array is written one element a line, indented by two
spaces. -/
theorem export_sample_json :
    sameIgnoringCase [74, 83, 79, 78] [106, 115, 111, 110] = true ∧
      exportClick sampleTranscript (some [74, 83, 79, 78]) =
        some ⟨[106, 115, 111, 110], Mime.applicationJson,
          [91, 10, 32, 32, 34, 89, 111, 117, 58, 32, 72, 105, 34, 44, 10, 32, 32, 34, 77, 105,
            114, 97, 105, 58, 32, 72, 101, 108, 108, 111, 34, 10, 93]⟩ := by
  decide

end Mirai
